import Mathlib

/-!
Verification development for the coroutine scheduler and test-runner core of a
cocotb-style C++ hardware-verification library (`src/cocotb.h`).

The scheduler is shallowly embedded as a pure state-transition system.  GPI
calls issued by the scheduler (signal writes, callback registrations) are
recorded as events on a trace, which is the observable against which the
specified properties are stated.  Coroutine frames are identified by natural
numbers; a frame's promise flags (`detached`, `completed`, `cancelled`,
`join_waiter`, captured exception) are carried in a `Frame` record, and the
user code a frame executes between two suspension points is modelled by the
sequence of signal writes it enqueues (the only scheduler-visible effect of
user code inside a resume batch).  Resuming a coroutine whose frame has been
destroyed is undefined behaviour in the source; the model skips such stale
queue entries.  `gpi_register_*` registration is modelled as succeeding (the
fallback path for a failed registration is not exercised by the properties
below).  The `while` drain loop of `run_ready` is given explicit fuel; every
theorem quantifies over the fuel.
-/

namespace CocotbCpp

/-- GPI-visible actions and scheduler lifecycle events recorded on the trace.
`applyWrite` is `gpi_set_signal_value_int`, `regReadWrite` is
`gpi_register_readwrite_callback`, `regNextTime` is
`gpi_register_nexttime_callback`, `regTimed h t` is
`gpi_register_timed_callback` resuming `h` after `t` ticks; `resumeFrame`,
`destroyFrame` and `notifyTestComplete` record `handle.resume()`,
`handle.destroy()` and the call into `TestRunner::on_test_complete`. -/
inductive Event where
  | applyWrite (handle : Nat) (value : Int)
  | regReadWrite
  | regReadOnly
  | regNextTime
  | regTimed (target : Nat) (ticks : Nat)
  | resumeFrame (fid : Nat)
  | destroyFrame (fid : Nat)
  | notifyTestComplete (fid : Nat)
  deriving DecidableEq, Repr

/-- A pending write request, `Scheduler::WriteRequest`. -/
structure WriteRequest where
  handle : Nat
  value : Int
  deriving DecidableEq, Repr

/-- The promise state of a coroutine frame (`task<>::promise_type`) together
with the frame's remaining behaviour: `body` is the list of resume segments
still to run, each segment being the writes that resumption enqueues before
the coroutine suspends again; the frame is done when no segment remains. -/
structure Frame where
  detached : Bool := false
  completed : Bool := false
  cancelled : Bool := false
  joinWaiter : Option Nat := none
  exc : Option String := none
  body : List (List WriteRequest) := []
  deriving DecidableEq, Repr

/-- A store of live coroutine frames, keyed by frame id. -/
abbrev FrameStore := List (Nat × Frame)

/-- Look up a live frame by id. -/
def findF (k : Nat) : FrameStore → Option Frame
  | [] => none
  | (k2, f) :: rest => if k = k2 then some f else findF k rest

/-- Replace the frame stored under an id (no-op on ids not present). -/
def setF (k : Nat) (f : Frame) : FrameStore → FrameStore
  | [] => []
  | (k2, g) :: rest => if k2 = k then (k, f) :: setF k f rest else (k2, g) :: setF k f rest

/-- Remove a frame from the store (`handle.destroy()`). -/
def removeF (k : Nat) : FrameStore → FrameStore
  | [] => []
  | (k2, g) :: rest => if k2 = k then removeF k rest else (k2, g) :: removeF k rest

/-- The scheduler state: ready queue, pending-write queue, the three phase
flags, the frame store, the test runner's current-test frame (consulted by
`run_ready` through `TestRunner::is_current_test`) and the event trace. -/
structure Sched where
  ready : List Nat := []
  pendingWrites : List WriteRequest := []
  rwCbPending : Bool := false
  inReadonly : Bool := false
  needRwAfterRo : Bool := false
  frames : FrameStore := []
  currentTest : Option Nat := none
  trace : List Event := []
  deriving DecidableEq, Repr

/-- `Scheduler::request_readwrite_callback`: inside a read-only phase only
record `need_rw_after_ro`; otherwise register a GPI read-write callback
unless one is already pending. -/
def request_readwrite_callback (s : Sched) : Sched :=
  if s.inReadonly then
    { s with needRwAfterRo := true }
  else if s.rwCbPending then
    s
  else
    { s with rwCbPending := true, trace := s.trace ++ [Event.regReadWrite] }

/-- `Scheduler::queue_write`: append a write request and request a read-write
callback. -/
def queue_write (h : Nat) (v : Int) (s : Sched) : Sched :=
  request_readwrite_callback { s with pendingWrites := s.pendingWrites ++ [⟨h, v⟩] }

/-- The `gpi_set_signal_value_int` calls issued when draining a pending-write
queue front to back (the loop body of `flush_pending_writes`). -/
def flushEvents : List WriteRequest → List Event
  | [] => []
  | w :: rest => Event.applyWrite w.handle w.value :: flushEvents rest

/-- `Scheduler::flush_pending_writes`: pop the queue front to back, applying
each write with `GPI_DEPOSIT`, then clear `rw_cb_pending_`. -/
def flush_pending_writes (s : Sched) : Sched :=
  { s with trace := s.trace ++ flushEvents s.pendingWrites,
           pendingWrites := [],
           rwCbPending := false }

/-- `Scheduler::enqueue_ready`: push a continuation on the ready queue and
always request a read-write callback so pending writes clear before it
runs. -/
def enqueue_ready (h : Nat) (s : Sched) : Sched :=
  request_readwrite_callback { s with ready := s.ready ++ [h] }

/-- `Scheduler::schedule_after_time`: register a one-shot GPI timed callback
that will resume the given continuation after the given tick count. -/
def schedule_after_time (h : Nat) (ticks : Nat) (s : Sched) : Sched :=
  { s with trace := s.trace ++ [Event.regTimed h ticks] }

/-- Destruction of a frame by the scheduler (`handle.destroy()`). -/
def destroy_frame (fid : Nat) (s : Sched) : Sched :=
  { s with frames := removeF fid s.frames, trace := s.trace ++ [Event.destroyFrame fid] }

/-- One resume segment of user code: the writes are enqueued in program
order through `Value::operator=`, i.e. through `queue_write`. -/
def runSegment (seg : List WriteRequest) (s : Sched) : Sched :=
  match seg with
  | [] => s
  | w :: rest => runSegment rest (queue_write w.handle w.value s)

/-- The join-waiter arm of `run_ready`'s completion handling: when the drain
runs inside the read-write trampoline and the completed frame enqueued
writes, flush immediately and bounce the waiter through a zero-tick timer;
otherwise enqueue the waiter directly. -/
def on_complete_with_waiter (fw : Bool) (w : Nat) (s : Sched) : Sched :=
  if fw && !s.pendingWrites.isEmpty then
    schedule_after_time w 0 (flush_pending_writes s)
  else
    enqueue_ready w s

/-- The no-waiter arm of `run_ready`'s completion handling: the current test
frame is reported to the test runner (which owns its destruction), a
detached frame is destroyed, and any other frame is left to its owner. -/
def on_complete_no_waiter (fid : Nat) (fr : Frame) (s : Sched) : Sched :=
  if s.currentTest = some fid then
    { s with trace := s.trace ++ [Event.notifyTestComplete fid] }
  else if fr.detached then
    destroy_frame fid s
  else
    s

/-- The `handle.resume()` step: record the resume on the trace and step the
frame's body to its next segment. -/
def resume_begin (fid : Nat) (fr : Frame) (s0 : Sched) : Sched :=
  { s0 with frames := setF fid { fr with body := fr.body.tail } s0.frames,
            trace := s0.trace ++ [Event.resumeFrame fid] }

/-- The `promise.completed = true` step after `handle.done()` is observed. -/
def mark_completed (fid : Nat) (fr : Frame) (s2 : Sched) : Sched :=
  { s2 with frames := setF fid { fr with body := [], completed := true } s2.frames }

/-- Resuming a live, non-cancelled frame: run its next segment; when it is
thereby done, mark it completed and dispatch to the waiter or no-waiter
completion arm. -/
def resume_frame_step (fw : Bool) (fid : Nat) (fr : Frame) (s0 : Sched) : Sched :=
  let s2 := runSegment (fr.body.headD []) (resume_begin fid fr s0)
  if fr.body.tail.isEmpty then
    match fr.joinWaiter with
    | some w => on_complete_with_waiter fw w (mark_completed fid fr s2)
    | none => on_complete_no_waiter fid fr (mark_completed fid fr s2)
  else
    s2

/-- The body of one iteration of `run_ready`'s drain loop, after the front
of the ready queue has been popped into `fid`.  A popped id whose frame is
gone is skipped (resuming it would be undefined behaviour in the source); a
cancelled frame is destroyed without being resumed; otherwise the frame is
resumed via `resume_frame_step`. -/
def run_one (fw : Bool) (fid : Nat) (s0 : Sched) : Sched :=
  match findF fid s0.frames with
  | none => s0
  | some fr =>
    if fr.cancelled then
      destroy_frame fid s0
    else
      resume_frame_step fw fid fr s0

/-- One iteration of the `while (!ready_.empty())` loop of
`Scheduler::run_ready`: `none` when the ready queue is empty and the loop
exits. -/
def run_ready_step (fw : Bool) (s : Sched) : Option Sched :=
  match s.ready with
  | [] => none
  | fid :: rest => some (run_one fw fid { s with ready := rest })

/-- The drain loop of `Scheduler::run_ready`, with explicit fuel. -/
def run_ready_loop (fw : Bool) : Nat → Sched → Sched
  | 0, s => s
  | Nat.succ fuel, s =>
    match run_ready_step fw s with
    | none => s
    | some s2 => run_ready_loop fw fuel s2

/-- `Scheduler::run_ready(flush_writes)`: flush the pending writes first when
asked to, then drain the ready queue. -/
def run_ready (fw : Bool) (fuel : Nat) (s : Sched) : Sched :=
  run_ready_loop fw fuel (if fw then flush_pending_writes s else s)

/-- The tail of `Scheduler::readonly_callback` after its drain returns:
clear `in_readonly_`, and if a read-write callback was requested during the
read-only phase, clear the deferred flag and register a GPI nexttime
callback. -/
def ro_finish (s2 : Sched) : Sched :=
  if s2.needRwAfterRo then
    { s2 with inReadonly := false, needRwAfterRo := false,
              trace := s2.trace ++ [Event.regNextTime] }
  else
    { s2 with inReadonly := false }

/-- `Scheduler::readonly_callback`: drain inside the read-only phase, then if
a read-write callback was requested meanwhile, defer it through a GPI
nexttime callback. -/
def readonly_callback (fuel : Nat) (s : Sched) : Sched :=
  ro_finish (run_ready false fuel { s with inReadonly := true })

/-- `Scheduler::nexttime_rw_callback`: at the start of the next time step,
re-issue the deferred read-write request. -/
def nexttime_rw_callback (s : Sched) : Sched :=
  request_readwrite_callback s

/-- The `cocotb::unit` enumeration of time units. -/
inductive TimeUnit where
  | fs | ps | ns | us | ms | sec | step
  deriving DecidableEq, Repr

/-- The numeric value of each enumerator of `cocotb::unit`
(`fs = -15, ps = -12, ns = -9, us = -6, ms = -3, sec = 1, step = 0`). -/
def TimeUnit.exponent : TimeUnit → Int
  | .fs => -15
  | .ps => -12
  | .ns => -9
  | .us => -6
  | .ms => -3
  | .sec => 1
  | .step => 0

namespace Timer

/-- `Timer::await_ready`: suspension is skipped exactly for a zero delay. -/
def await_ready (delay : Nat) : Bool :=
  delay == 0

/-- The tick count computed by `Timer::await_suspend` and handed to
`schedule_after_time`: `factor` is `1` for `unit::step` and otherwise
`pow(10, -precision) / pow(10, -unit)`, and the product `delay * factor` is
truncated toward zero by the `uint64_t` cast.  The source computes with
`double`; the model reads that real-valued computation exactly, as rational
arithmetic. -/
def ticks (delay : Nat) (timeUnit precision : TimeUnit) : Nat :=
  let factor : ℚ :=
    if timeUnit = TimeUnit.step then 1
    else (10 : ℚ) ^ (-precision.exponent) / (10 : ℚ) ^ (-timeUnit.exponent)
  (⌊(delay : ℚ) * factor⌋).toNat

/-- `Timer::await_suspend`: register a one-shot timed callback for the
converted tick count. -/
def await_suspend (delay : Nat) (timeUnit precision : TimeUnit) (h : Nat) (s : Sched) : Sched :=
  schedule_after_time h (ticks delay timeUnit precision) s

end Timer

/-- Modelled from the spec sentence the claim quotes, for comparison with
`Timer.ticks`: `ticks = delay * 10 ^ (unit - precision)`, rounded toward
zero. -/
def specTicks (delay : Nat) (timeUnit precision : TimeUnit) : Nat :=
  (⌊(delay : ℚ) * (10 : ℚ) ^ (timeUnit.exponent - precision.exponent)⌋).toNat

/-- The mutable state of one `Handle`: its validity, its child cache
(`unordered_map<string, optional<Handle>>`, insertion modelled as list
append) and the trace of `gpi_get_handle_by_name` queries it has issued.
Child handles are identified by naturals. -/
structure HandleState where
  valid : Bool := true
  cache : List (String × Option Nat) := []
  queries : List String := []
  deriving DecidableEq, Repr

/-- Association-list lookup for the child cache (`cache_.find(name)`). -/
def cacheFind (name : String) : List (String × Option Nat) → Option (Option Nat)
  | [] => none
  | (n, v) :: rest => if name = n then some v else cacheFind name rest

/-- `Handle::operator[]` against a simulator hierarchy `sim` mapping child
names to handles: an invalid handle answers invalid; a cache hit answers the
cached entry (`value_or(Handle{})`); otherwise `gpi_get_handle_by_name` is
queried, and only a found child is inserted into the cache — the miss path
returns an invalid handle without touching the cache. -/
def handle_child (sim : String → Option Nat) (name : String) (st : HandleState) :
    Option Nat × HandleState :=
  if !st.valid then
    (none, st)
  else
    match cacheFind name st.cache with
    | some cached => (cached, st)
    | none =>
      let st1 : HandleState := { st with queries := st.queries ++ [name] }
      match sim name with
      | none => (none, st1)
      | some h => (some h, { st1 with cache := st1.cache ++ [(name, some h)] })

/-- `task<>::join_awaiter::await_resume` on a frame store: a null handle
returns at once; with a live target frame, a captured exception is rethrown
(the returned `Option String` is the exception propagated to the resumed
waiter) — in that case control leaves `await_resume` at the
`std::rethrow_exception` call, before the `handle.destroy()` statement — and
only when no exception was captured is the frame destroyed.  The source
presumes the target frame is still live; a stale id leaves the store
unchanged. -/
def join_await_resume (h : Option Nat) (frames : FrameStore) : Option String × FrameStore :=
  match h with
  | none => (none, frames)
  | some fid =>
    match findF fid frames with
    | none => (none, frames)
    | some fr =>
      match fr.exc with
      | some e => (some e, frames)
      | none => (none, removeF fid frames)

/-- A `JoinHandle` as returned by `start_soon`: the child frame id (none
after a move or cleanup) and whether `join()` / `co_await` was called. -/
structure JoinHandleM where
  handle : Option Nat := none
  joined : Bool := false
  deriving DecidableEq, Repr

/-- `JoinHandle::cleanup` (run by the destructor and by move-assignment): a
handle dropped without having been joined marks the child frame cancelled —
the scheduler destroys it when it next sees it — and the handle is
cleared. -/
def joinhandle_cleanup (jh : JoinHandleM) (frames : FrameStore) : JoinHandleM × FrameStore :=
  match jh.handle with
  | none => (jh, frames)
  | some fid =>
    let frames2 :=
      if jh.joined then frames
      else
        match findF fid frames with
        | none => frames
        | some fr => setF fid { fr with cancelled := true } frames
    ({ handle := none, joined := jh.joined }, frames2)

/-- A test's recorded outcome, `TestRunner::TestResult` (wall-clock timing
is not modelled). -/
structure TestResult where
  name : String
  passed : Bool
  errorMessage : String
  deriving DecidableEq, Repr

/-- The test-runner loop `run_next_test` / `on_test_complete`, abstracted to
its result bookkeeping: each registered test is given by its name and the
exception it ends with (`none` for a pass; an exception thrown during
construction and one captured by the coroutine's promise are recorded the
same way).  Both completion paths record a result and advance to the next
registered test unconditionally, so the recursion visits every test. -/
def run_tests : List (String × Option String) → List TestResult
  | [] => []
  | (n, exc) :: rest =>
    { name := n, passed := exc.isNone, errorMessage := exc.getD "" } :: run_tests rest

/-- `TestRunner::report_results`, reduced to its exit behaviour: count the
failed results and call `std::exit(1)` when any failed (`some 1`); otherwise
return normally (`none`) so that the runner proceeds to `gpi_finish`. -/
def report_results_exit (results : List TestResult) : Option Nat :=
  let failed := results.countP (fun r => !r.passed)
  if failed > 0 then some 1 else none

/-! ### Predicates used in the stated properties, and concrete scenario
states used to instantiate them -/

/-- The trace of `s2` extends the trace of `s`, every appended event
satisfying `P`. -/
def TraceExt (s s2 : Sched) (P : Event → Prop) : Prop :=
  ∃ δ, s2.trace = s.trace ++ δ ∧ ∀ e ∈ δ, P e

/-- Frame `fid` is either gone from the store or marked cancelled. -/
def cancelledOrGone (fid : Nat) (s : Sched) : Prop :=
  ∀ fr, findF fid s.frames = some fr → fr.cancelled = true

/-- Frame `fid` is live, not cancelled, and has a join waiter installed. -/
def waiterLive (fid : Nat) (s : Sched) : Prop :=
  ∃ fr, findF fid s.frames = some fr ∧ fr.cancelled = false ∧ fr.joinWaiter.isSome = true

/-- A simulator hierarchy with no children, for exercising the miss path of
`Handle::operator[]`. -/
def missSim : String → Option Nat := fun _ => none

/-- A frame whose coroutine body ended with a captured exception. -/
def excFrame : Frame :=
  { exc := some "boom" }

/-- A frame that completed normally (no captured exception). -/
def plainFrame : Frame :=
  {}

/-- A detached frame already marked cancelled by a dropped `JoinHandle`. -/
def droppedFrame : Frame :=
  { detached := true, cancelled := true, body := [[]] }

/-- A ready queue holding only the cancelled frame `4`. -/
def dropScenario : Sched :=
  { ready := [4], frames := [(4, droppedFrame)] }

/-- A detached frame that writes `5` to signal `2` in its only segment. -/
def writerFrame : Frame :=
  { detached := true, body := [[⟨2, 5⟩]] }

/-- A ready queue holding the writer frame `1`, about to be drained inside a
read-only callback. -/
def roScenario : Sched :=
  { ready := [1], frames := [(1, writerFrame)] }

/-! ### Frame-store lemmas -/

theorem findF_setF_self (k : Nat) (f : Frame) (l : FrameStore) :
    findF k (setF k f l) = (findF k l).map (fun _ => f) := by
  induction l with
  | nil => rfl
  | cons p rest ih =>
    obtain ⟨a, g⟩ := p
    by_cases h : a = k
    · subst h
      simp [setF, findF]
    · have hk : ¬k = a := fun hk => h hk.symm
      simp [setF, findF, h, hk, ih]

theorem findF_setF_ne (k k2 : Nat) (f : Frame) (l : FrameStore) (h : k ≠ k2) :
    findF k (setF k2 f l) = findF k l := by
  induction l with
  | nil => rfl
  | cons p rest ih =>
    obtain ⟨a, g⟩ := p
    by_cases ha : a = k2
    · subst ha
      simp [setF, findF, if_neg h, ih]
    · by_cases hk : k = a
      · subst hk
        simp [setF, findF, ha]
      · simp [setF, findF, ha, hk, ih]

theorem findF_removeF_self (k : Nat) (l : FrameStore) :
    findF k (removeF k l) = none := by
  induction l with
  | nil => rfl
  | cons p rest ih =>
    obtain ⟨a, g⟩ := p
    by_cases h : a = k
    · subst h
      simpa [removeF] using ih
    · have hk : ¬k = a := fun hk => h hk.symm
      simp [removeF, findF, h, hk, ih]

theorem findF_removeF_ne (k k2 : Nat) (l : FrameStore) (h : k ≠ k2) :
    findF k (removeF k2 l) = findF k l := by
  induction l with
  | nil => rfl
  | cons p rest ih =>
    obtain ⟨a, g⟩ := p
    by_cases ha : a = k2
    · subst ha
      simp [removeF, findF, if_neg h, ih]
    · by_cases hk : k = a
      · subst hk
        simp [removeF, findF, ha]
      · simp [removeF, findF, ha, hk, ih]

/-! ### Preservation of scheduler-state components by the primitives -/

@[simp] theorem request_rw_frames (s : Sched) :
    (request_readwrite_callback s).frames = s.frames := by
  unfold request_readwrite_callback
  split <;> [rfl; skip]
  split <;> rfl

@[simp] theorem request_rw_inReadonly (s : Sched) :
    (request_readwrite_callback s).inReadonly = s.inReadonly := by
  unfold request_readwrite_callback
  split <;> [rfl; skip]
  split <;> rfl

@[simp] theorem request_rw_currentTest (s : Sched) :
    (request_readwrite_callback s).currentTest = s.currentTest := by
  unfold request_readwrite_callback
  split <;> [rfl; skip]
  split <;> rfl

@[simp] theorem queue_write_frames (h : Nat) (v : Int) (s : Sched) :
    (queue_write h v s).frames = s.frames := by
  simp [queue_write]

@[simp] theorem queue_write_inReadonly (h : Nat) (v : Int) (s : Sched) :
    (queue_write h v s).inReadonly = s.inReadonly := by
  simp [queue_write]

@[simp] theorem queue_write_currentTest (h : Nat) (v : Int) (s : Sched) :
    (queue_write h v s).currentTest = s.currentTest := by
  simp [queue_write]

@[simp] theorem runSegment_frames (seg : List WriteRequest) (s : Sched) :
    (runSegment seg s).frames = s.frames := by
  induction seg generalizing s with
  | nil => rfl
  | cons w rest ih => simp [runSegment, ih]

@[simp] theorem runSegment_inReadonly (seg : List WriteRequest) (s : Sched) :
    (runSegment seg s).inReadonly = s.inReadonly := by
  induction seg generalizing s with
  | nil => rfl
  | cons w rest ih => simp [runSegment, ih]

@[simp] theorem runSegment_currentTest (seg : List WriteRequest) (s : Sched) :
    (runSegment seg s).currentTest = s.currentTest := by
  induction seg generalizing s with
  | nil => rfl
  | cons w rest ih => simp [runSegment, ih]

@[simp] theorem flush_frames (s : Sched) :
    (flush_pending_writes s).frames = s.frames := rfl

@[simp] theorem flush_inReadonly (s : Sched) :
    (flush_pending_writes s).inReadonly = s.inReadonly := rfl

@[simp] theorem flush_currentTest (s : Sched) :
    (flush_pending_writes s).currentTest = s.currentTest := rfl

@[simp] theorem enqueue_ready_frames (h : Nat) (s : Sched) :
    (enqueue_ready h s).frames = s.frames := by
  simp [enqueue_ready]

@[simp] theorem enqueue_ready_inReadonly (h : Nat) (s : Sched) :
    (enqueue_ready h s).inReadonly = s.inReadonly := by
  simp [enqueue_ready]

@[simp] theorem enqueue_ready_currentTest (h : Nat) (s : Sched) :
    (enqueue_ready h s).currentTest = s.currentTest := by
  simp [enqueue_ready]

@[simp] theorem schedule_after_time_frames (h ticks : Nat) (s : Sched) :
    (schedule_after_time h ticks s).frames = s.frames := rfl

@[simp] theorem schedule_after_time_inReadonly (h ticks : Nat) (s : Sched) :
    (schedule_after_time h ticks s).inReadonly = s.inReadonly := rfl

@[simp] theorem schedule_after_time_currentTest (h ticks : Nat) (s : Sched) :
    (schedule_after_time h ticks s).currentTest = s.currentTest := rfl

@[simp] theorem destroy_frame_frames (fid : Nat) (s : Sched) :
    (destroy_frame fid s).frames = removeF fid s.frames := rfl

@[simp] theorem destroy_frame_inReadonly (fid : Nat) (s : Sched) :
    (destroy_frame fid s).inReadonly = s.inReadonly := rfl

@[simp] theorem destroy_frame_currentTest (fid : Nat) (s : Sched) :
    (destroy_frame fid s).currentTest = s.currentTest := rfl

@[simp] theorem on_complete_with_waiter_frames (fw : Bool) (w : Nat) (s : Sched) :
    (on_complete_with_waiter fw w s).frames = s.frames := by
  unfold on_complete_with_waiter
  split <;> simp

@[simp] theorem on_complete_with_waiter_inReadonly (fw : Bool) (w : Nat) (s : Sched) :
    (on_complete_with_waiter fw w s).inReadonly = s.inReadonly := by
  unfold on_complete_with_waiter
  split <;> simp

@[simp] theorem on_complete_with_waiter_currentTest (fw : Bool) (w : Nat) (s : Sched) :
    (on_complete_with_waiter fw w s).currentTest = s.currentTest := by
  unfold on_complete_with_waiter
  split <;> simp

@[simp] theorem on_complete_no_waiter_inReadonly (fid : Nat) (fr : Frame) (s : Sched) :
    (on_complete_no_waiter fid fr s).inReadonly = s.inReadonly := by
  unfold on_complete_no_waiter
  split <;> [rfl; skip]
  split <;> rfl

@[simp] theorem on_complete_no_waiter_currentTest (fid : Nat) (fr : Frame) (s : Sched) :
    (on_complete_no_waiter fid fr s).currentTest = s.currentTest := by
  unfold on_complete_no_waiter
  split <;> [rfl; skip]
  split <;> rfl

/-! ### Trace extension -/

theorem traceExt_refl (s : Sched) (P : Event → Prop) : TraceExt s s P :=
  ⟨[], by simp⟩

theorem traceExt_trans {s1 s2 s3 : Sched} {P : Event → Prop}
    (h1 : TraceExt s1 s2 P) (h2 : TraceExt s2 s3 P) : TraceExt s1 s3 P := by
  obtain ⟨d1, he1, hp1⟩ := h1
  obtain ⟨d2, he2, hp2⟩ := h2
  refine ⟨d1 ++ d2, by simp [he2, he1], ?_⟩
  intro e he
  rcases List.mem_append.mp he with h | h
  · exact hp1 e h
  · exact hp2 e h

theorem traceExt_of_eq {s s2 : Sched} {P : Event → Prop}
    (h : s2.trace = s.trace) : TraceExt s s2 P :=
  ⟨[], by simp [h]⟩

theorem traceExt_append {s s2 : Sched} {P : Event → Prop} {δ : List Event}
    (h : s2.trace = s.trace ++ δ) (hp : ∀ e ∈ δ, P e) : TraceExt s s2 P :=
  ⟨δ, h, hp⟩

theorem flushEvents_eq_map (l : List WriteRequest) :
    flushEvents l = l.map (fun w => Event.applyWrite w.handle w.value) := by
  induction l with
  | nil => rfl
  | cons w rest ih => simp [flushEvents, ih]

theorem traceExt_request_rw (s : Sched) {P : Event → Prop}
    (hp : P Event.regReadWrite) : TraceExt s (request_readwrite_callback s) P := by
  unfold request_readwrite_callback
  split
  · exact traceExt_of_eq rfl
  · split
    · exact traceExt_refl s P
    · exact traceExt_append rfl (by simpa using hp)

theorem traceExt_queue_write (h : Nat) (v : Int) (s : Sched) {P : Event → Prop}
    (hp : P Event.regReadWrite) : TraceExt s (queue_write h v s) P := by
  unfold queue_write
  exact traceExt_trans (traceExt_of_eq rfl)
    (traceExt_request_rw _ hp)

theorem traceExt_runSegment (seg : List WriteRequest) (s : Sched) {P : Event → Prop}
    (hp : P Event.regReadWrite) : TraceExt s (runSegment seg s) P := by
  induction seg generalizing s with
  | nil => exact traceExt_refl s P
  | cons w rest ih =>
    exact traceExt_trans (traceExt_queue_write _ _ _ hp) (ih _)

theorem traceExt_flush (s : Sched) {P : Event → Prop}
    (hp : ∀ a b, P (Event.applyWrite a b)) : TraceExt s (flush_pending_writes s) P := by
  refine traceExt_append rfl ?_
  intro e he
  rw [flushEvents_eq_map] at he
  obtain ⟨w, _, rfl⟩ := List.mem_map.mp he
  exact hp _ _

theorem traceExt_enqueue_ready (h : Nat) (s : Sched) {P : Event → Prop}
    (hp : P Event.regReadWrite) : TraceExt s (enqueue_ready h s) P := by
  unfold enqueue_ready
  exact traceExt_trans (traceExt_of_eq rfl) (traceExt_request_rw _ hp)

theorem traceExt_schedule_after_time (h ticks : Nat) (s : Sched) {P : Event → Prop}
    (hp : P (Event.regTimed h ticks)) : TraceExt s (schedule_after_time h ticks s) P :=
  traceExt_append rfl (by simpa using hp)

theorem traceExt_destroy_frame (fid : Nat) (s : Sched) {P : Event → Prop}
    (hp : P (Event.destroyFrame fid)) : TraceExt s (destroy_frame fid s) P :=
  traceExt_append rfl (by simpa using hp)

/-! ### Conditional trace-extension lemmas: a `gpi_register_readwrite_callback`
call can only be issued outside a read-only phase, so the obligation on
`Event.regReadWrite` is guarded by `inReadonly = false`. -/

theorem traceExt_request_rw_cond (s : Sched) {P : Event → Prop}
    (hp : s.inReadonly = false → P Event.regReadWrite) :
    TraceExt s (request_readwrite_callback s) P := by
  unfold request_readwrite_callback
  split
  · exact traceExt_of_eq rfl
  · rename_i hro
    split
    · exact traceExt_refl s P
    · exact traceExt_append rfl (by simpa using hp (by simpa using hro))

theorem traceExt_queue_write_cond (h : Nat) (v : Int) (s : Sched) {P : Event → Prop}
    (hp : s.inReadonly = false → P Event.regReadWrite) :
    TraceExt s (queue_write h v s) P := by
  unfold queue_write
  exact traceExt_trans (traceExt_of_eq rfl) (traceExt_request_rw_cond _ hp)

theorem traceExt_runSegment_cond (seg : List WriteRequest) (s : Sched) {P : Event → Prop}
    (hp : s.inReadonly = false → P Event.regReadWrite) :
    TraceExt s (runSegment seg s) P := by
  induction seg generalizing s with
  | nil => exact traceExt_refl s P
  | cons w rest ih =>
    refine traceExt_trans (traceExt_queue_write_cond _ _ _ hp) (ih _ ?_)
    simpa using hp

theorem traceExt_enqueue_ready_cond (h : Nat) (s : Sched) {P : Event → Prop}
    (hp : s.inReadonly = false → P Event.regReadWrite) :
    TraceExt s (enqueue_ready h s) P := by
  unfold enqueue_ready
  exact traceExt_trans (traceExt_of_eq rfl) (traceExt_request_rw_cond _ hp)

theorem traceExt_on_complete_with_waiter (fw : Bool) (w : Nat) (s : Sched) {P : Event → Prop}
    (hp : s.inReadonly = false → P Event.regReadWrite)
    (hT : P (Event.regTimed w 0))
    (hW : fw = true → ∀ a b, P (Event.applyWrite a b)) :
    TraceExt s (on_complete_with_waiter fw w s) P := by
  unfold on_complete_with_waiter
  split
  · rename_i hc
    have hfw : fw = true := by
      cases fw
      · simp at hc
      · rfl
    exact traceExt_trans (traceExt_flush _ (hW hfw))
      (traceExt_schedule_after_time _ _ _ hT)
  · exact traceExt_enqueue_ready_cond _ _ hp

theorem traceExt_on_complete_no_waiter (fid : Nat) (fr : Frame) (s : Sched) {P : Event → Prop}
    (hN : P (Event.notifyTestComplete fid))
    (hD : P (Event.destroyFrame fid)) :
    TraceExt s (on_complete_no_waiter fid fr s) P := by
  unfold on_complete_no_waiter
  split
  · exact traceExt_append rfl (by simpa using hN)
  · split
    · exact traceExt_destroy_frame _ _ hD
    · exact traceExt_refl s P

theorem traceExt_resume_frame_step (fw : Bool) (fid : Nat) (fr : Frame) (s : Sched)
    {P : Event → Prop}
    (hRW : s.inReadonly = false → P Event.regReadWrite)
    (hT : ∀ w t, P (Event.regTimed w t))
    (hD : P (Event.destroyFrame fid))
    (hR : P (Event.resumeFrame fid))
    (hN : P (Event.notifyTestComplete fid))
    (hW : fw = true → ∀ a b, P (Event.applyWrite a b)) :
    TraceExt s (resume_frame_step fw fid fr s) P := by
  have hbegin : TraceExt s (resume_begin fid fr s) P :=
    traceExt_append rfl (by simpa using hR)
  have hseg : TraceExt s (runSegment (fr.body.headD []) (resume_begin fid fr s)) P :=
    traceExt_trans hbegin (traceExt_runSegment_cond _ _ (by simpa [resume_begin] using hRW))
  have hmark : TraceExt s
      (mark_completed fid fr (runSegment (fr.body.headD []) (resume_begin fid fr s))) P :=
    traceExt_trans hseg (traceExt_of_eq rfl)
  have hro2 : (mark_completed fid fr
      (runSegment (fr.body.headD []) (resume_begin fid fr s))).inReadonly = s.inReadonly := by
    simp [mark_completed, resume_begin]
  unfold resume_frame_step
  split
  · cases hj : fr.joinWaiter with
    | some w =>
      refine traceExt_trans hmark ?_
      refine traceExt_on_complete_with_waiter _ _ _ ?_ (hT _ _) hW
      intro hro
      exact hRW (hro2 ▸ hro)
    | none =>
      exact traceExt_trans hmark (traceExt_on_complete_no_waiter _ _ _ hN hD)
  · exact hseg

/-- The events one drain-loop iteration can append: a resume, a frame
destruction, a test-completion notification, a timed-callback registration
for the zero-tick bounce, write applications only when the drain is a
read-write one, and a read-write-callback registration only outside a
read-only phase. -/
theorem traceExt_run_one (fw : Bool) (fid : Nat) (s : Sched) {P : Event → Prop}
    (hRW : s.inReadonly = false → P Event.regReadWrite)
    (hT : ∀ w t, P (Event.regTimed w t))
    (hD : P (Event.destroyFrame fid))
    (hR : P (Event.resumeFrame fid))
    (hN : P (Event.notifyTestComplete fid))
    (hW : fw = true → ∀ a b, P (Event.applyWrite a b)) :
    TraceExt s (run_one fw fid s) P := by
  unfold run_one
  cases hf : findF fid s.frames with
  | none => exact traceExt_refl s P
  | some fr =>
    show TraceExt s
      (if fr.cancelled = true then destroy_frame fid s else resume_frame_step fw fid fr s) P
    by_cases hc : fr.cancelled = true
    · rw [if_pos hc]
      exact traceExt_destroy_frame _ _ hD
    · rw [if_neg hc]
      exact traceExt_resume_frame_step fw fid fr s hRW hT hD hR hN hW

@[simp] theorem resume_begin_inReadonly (fid : Nat) (fr : Frame) (s : Sched) :
    (resume_begin fid fr s).inReadonly = s.inReadonly := rfl

@[simp] theorem mark_completed_inReadonly (fid : Nat) (fr : Frame) (s : Sched) :
    (mark_completed fid fr s).inReadonly = s.inReadonly := rfl

@[simp] theorem resume_frame_step_inReadonly (fw : Bool) (fid : Nat) (fr : Frame) (s : Sched) :
    (resume_frame_step fw fid fr s).inReadonly = s.inReadonly := by
  unfold resume_frame_step
  split
  · cases fr.joinWaiter with
    | some w => simp
    | none => simp
  · simp

@[simp] theorem run_one_inReadonly (fw : Bool) (fid : Nat) (s : Sched) :
    (run_one fw fid s).inReadonly = s.inReadonly := by
  unfold run_one
  cases hf : findF fid s.frames with
  | none => rfl
  | some fr =>
    show (if fr.cancelled = true then destroy_frame fid s
          else resume_frame_step fw fid fr s).inReadonly = s.inReadonly
    by_cases hc : fr.cancelled = true
    · rw [if_pos hc]
      rfl
    · rw [if_neg hc]
      simp

theorem run_ready_step_eq (fw : Bool) (s s2 : Sched) (h : run_ready_step fw s = some s2) :
    ∃ fid rest, s.ready = fid :: rest ∧ s2 = run_one fw fid { s with ready := rest } := by
  unfold run_ready_step at h
  cases hr : s.ready with
  | nil => rw [hr] at h; exact absurd h (by simp)
  | cons fid rest =>
    rw [hr] at h
    simp only [Option.some.injEq] at h
    exact ⟨fid, rest, rfl, h.symm⟩

theorem run_ready_step_inReadonly (fw : Bool) (s s2 : Sched) (h : run_ready_step fw s = some s2) :
    s2.inReadonly = s.inReadonly := by
  obtain ⟨fid, rest, _, rfl⟩ := run_ready_step_eq fw s s2 h
  simp

theorem run_ready_loop_unfold (fw : Bool) (fuel : Nat) (s : Sched) :
    run_ready_loop fw (fuel + 1) s =
      match run_ready_step fw s with
      | none => s
      | some s2 => run_ready_loop fw fuel s2 := rfl

@[simp] theorem run_ready_loop_inReadonly (fw : Bool) (fuel : Nat) (s : Sched) :
    (run_ready_loop fw fuel s).inReadonly = s.inReadonly := by
  induction fuel generalizing s with
  | zero => rfl
  | succ fuel ih =>
    rw [run_ready_loop_unfold]
    cases hstep : run_ready_step fw s with
    | none => rfl
    | some s2 => rw [ih s2, run_ready_step_inReadonly fw s s2 hstep]

/-- Master trace lemma for the drain loop: the events one `run_ready` drain
can append. -/
theorem traceExt_run_ready_loop (fw : Bool) {P : Event → Prop}
    (hT : ∀ w t, P (Event.regTimed w t))
    (hD : ∀ f, P (Event.destroyFrame f))
    (hR : ∀ f, P (Event.resumeFrame f))
    (hN : ∀ f, P (Event.notifyTestComplete f))
    (hW : fw = true → ∀ a b, P (Event.applyWrite a b)) :
    ∀ (fuel : Nat) (s : Sched), (s.inReadonly = false → P Event.regReadWrite) →
      TraceExt s (run_ready_loop fw fuel s) P := by
  intro fuel
  induction fuel with
  | zero => intro s _; exact traceExt_refl _ _
  | succ fuel ih =>
    intro s hRW
    rw [run_ready_loop_unfold]
    cases hstep : run_ready_step fw s with
    | none => exact traceExt_refl _ _
    | some s2 =>
      obtain ⟨fid, rest, hr, hs2⟩ := run_ready_step_eq fw s s2 hstep
      have h1 : TraceExt s s2 P := by
        rw [hs2]
        exact traceExt_run_one fw fid _ hRW hT (hD _) (hR _) (hN _) hW
      refine traceExt_trans h1 (ih s2 ?_)
      rw [run_ready_step_inReadonly fw s s2 hstep]
      exact hRW

/-! ### Effect of one drain iteration on the frame store -/

theorem findF_on_complete_with_waiter (fw : Bool) (w : Nat) (s : Sched) (fid : Nat) :
    findF fid (on_complete_with_waiter fw w s).frames = findF fid s.frames := by
  rw [on_complete_with_waiter_frames]

theorem findF_on_complete_no_waiter_ne (fid fid2 : Nat) (fr : Frame) (s : Sched)
    (h : fid ≠ fid2) :
    findF fid (on_complete_no_waiter fid2 fr s).frames = findF fid s.frames := by
  unfold on_complete_no_waiter
  split
  · rfl
  · split
    · exact findF_removeF_ne fid fid2 s.frames h
    · rfl

theorem findF_resume_frame_step_ne (fw : Bool) (fid2 : Nat) (fr : Frame) (s : Sched)
    (fid : Nat) (h : fid ≠ fid2) :
    findF fid (resume_frame_step fw fid2 fr s).frames = findF fid s.frames := by
  unfold resume_frame_step
  split
  · cases fr.joinWaiter with
    | some w =>
      rw [findF_on_complete_with_waiter]
      simp [mark_completed, resume_begin, findF_setF_ne _ _ _ _ h]
    | none =>
      rw [findF_on_complete_no_waiter_ne _ _ _ _ h]
      simp [mark_completed, resume_begin, findF_setF_ne _ _ _ _ h]
  · simp [resume_begin, findF_setF_ne _ _ _ _ h]

theorem findF_resume_frame_step_self_waiter (fw : Bool) (fid : Nat) (fr : Frame) (s : Sched)
    (w : Nat) (hw : fr.joinWaiter = some w) (hdone : fr.body.tail.isEmpty = true) :
    findF fid (resume_frame_step fw fid fr s).frames =
      (findF fid s.frames).map (fun _ => { fr with body := [], completed := true }) := by
  unfold resume_frame_step
  rw [if_pos hdone, hw]
  show findF fid (on_complete_with_waiter fw w
      (mark_completed fid fr (runSegment (fr.body.headD []) (resume_begin fid fr s)))).frames = _
  rw [findF_on_complete_with_waiter]
  simp only [mark_completed, resume_begin, runSegment_frames, findF_setF_self, Option.map_map]
  cases findF fid s.frames <;> simp [hw]

theorem findF_resume_frame_step_self_notdone (fw : Bool) (fid : Nat) (fr : Frame) (s : Sched)
    (hdone : fr.body.tail.isEmpty = false) :
    findF fid (resume_frame_step fw fid fr s).frames =
      (findF fid s.frames).map (fun _ => { fr with body := fr.body.tail }) := by
  unfold resume_frame_step
  rw [if_neg (by simp [hdone])]
  simp [resume_begin, findF_setF_self]

/-! ### The cancelled-frame invariant -/

theorem run_one_cancelled (fw : Bool) (fid2 fid : Nat) (s : Sched)
    (h : cancelledOrGone fid s) :
    cancelledOrGone fid (run_one fw fid2 s) ∧
    TraceExt s (run_one fw fid2 s) (fun e => e ≠ Event.resumeFrame fid) := by
  unfold run_one
  cases hf : findF fid2 s.frames with
  | none => exact ⟨h, traceExt_refl _ _⟩
  | some fr =>
    show cancelledOrGone fid
        (if fr.cancelled = true then destroy_frame fid2 s else resume_frame_step fw fid2 fr s) ∧
      TraceExt s
        (if fr.cancelled = true then destroy_frame fid2 s else resume_frame_step fw fid2 fr s) _
    by_cases hc : fr.cancelled = true
    · rw [if_pos hc]
      refine ⟨?_, traceExt_destroy_frame _ _ (by simp)⟩
      intro g hg
      by_cases he : fid = fid2
      · subst he
        rw [destroy_frame_frames, findF_removeF_self] at hg
        exact absurd hg (by simp)
      · rw [destroy_frame_frames, findF_removeF_ne _ _ _ he] at hg
        exact h g hg
    · rw [if_neg hc]
      have hne : fid ≠ fid2 := by
        intro he
        subst he
        exact hc (h fr hf)
      constructor
      · intro g hg
        rw [findF_resume_frame_step_ne _ _ _ _ _ hne] at hg
        exact h g hg
      · refine traceExt_resume_frame_step fw fid2 fr s ?_ ?_ ?_ ?_ ?_ ?_
        · intro _
          simp
        · intro w t
          simp
        · simp
        · simpa using Ne.symm hne
        · simp
        · intro _ a b
          simp

theorem run_ready_loop_cancelled (fw : Bool) (fid : Nat) :
    ∀ (fuel : Nat) (s : Sched), cancelledOrGone fid s →
      cancelledOrGone fid (run_ready_loop fw fuel s) ∧
      TraceExt s (run_ready_loop fw fuel s) (fun e => e ≠ Event.resumeFrame fid) := by
  intro fuel
  induction fuel with
  | zero => exact fun s h => ⟨h, traceExt_refl _ _⟩
  | succ fuel ih =>
    intro s h
    rw [run_ready_loop_unfold]
    cases hstep : run_ready_step fw s with
    | none => exact ⟨h, traceExt_refl _ _⟩
    | some s2 =>
      obtain ⟨fid2, rest, hr, hs2⟩ := run_ready_step_eq fw s s2 hstep
      have h0 : cancelledOrGone fid { s with ready := rest } := fun g hg => h g hg
      have h1 := run_one_cancelled fw fid2 fid { s with ready := rest } h0
      rw [← hs2] at h1
      obtain ⟨h2, h3⟩ := ih s2 h1.1
      exact ⟨h2, traceExt_trans (traceExt_trans (traceExt_of_eq rfl) h1.2) h3⟩

/-! ### The live-waiter-frame invariant -/

theorem run_one_waiterLive (fw : Bool) (fid2 fid : Nat) (s : Sched)
    (h : waiterLive fid s) : waiterLive fid (run_one fw fid2 s) := by
  obtain ⟨fr, hf, hc, hw⟩ := h
  unfold run_one
  cases hf2 : findF fid2 s.frames with
  | none => exact ⟨fr, hf, hc, hw⟩
  | some fr2 =>
    show waiterLive fid
      (if fr2.cancelled = true then destroy_frame fid2 s else resume_frame_step fw fid2 fr2 s)
    by_cases hc2 : fr2.cancelled = true
    · rw [if_pos hc2]
      by_cases he : fid = fid2
      · subst he
        rw [hf] at hf2
        injection hf2 with h3
        subst h3
        rw [hc] at hc2
        exact absurd hc2 (by simp)
      · exact ⟨fr, by rw [destroy_frame_frames, findF_removeF_ne _ _ _ he]; exact hf, hc, hw⟩
    · rw [if_neg hc2]
      by_cases he : fid = fid2
      · subst he
        rw [hf] at hf2
        injection hf2 with h3
        subst h3
        obtain ⟨w, hwEq⟩ := Option.isSome_iff_exists.mp hw
        by_cases hdone : fr.body.tail.isEmpty = true
        · refine ⟨{ fr with body := [], completed := true }, ?_, by simpa using hc, by simpa using hw⟩
          rw [findF_resume_frame_step_self_waiter fw fid fr s w hwEq hdone, hf]
          rfl
        · refine ⟨{ fr with body := fr.body.tail }, ?_, by simpa using hc, by simpa using hw⟩
          rw [findF_resume_frame_step_self_notdone fw fid fr s (by simpa using hdone), hf]
          rfl
      · exact ⟨fr, by rw [findF_resume_frame_step_ne _ _ _ _ _ he]; exact hf, hc, hw⟩

theorem run_ready_loop_waiterLive (fw : Bool) (fid : Nat) :
    ∀ (fuel : Nat) (s : Sched), waiterLive fid s →
      waiterLive fid (run_ready_loop fw fuel s) := by
  intro fuel
  induction fuel with
  | zero => exact fun s h => h
  | succ fuel ih =>
    intro s h
    rw [run_ready_loop_unfold]
    cases hstep : run_ready_step fw s with
    | none => exact h
    | some s2 =>
      obtain ⟨fid2, rest, hr, hs2⟩ := run_ready_step_eq fw s s2 hstep
      have h0 : waiterLive fid { s with ready := rest } := h
      have h1 := run_one_waiterLive fw fid2 fid { s with ready := rest } h0
      rw [← hs2] at h1
      exact ih s2 h1

/-! ### The four branches of request_readwrite_callback and run_ready -/

theorem request_rw_of_readonly (s : Sched) (h : s.inReadonly = true) :
    request_readwrite_callback s = { s with needRwAfterRo := true } := by
  unfold request_readwrite_callback
  rw [if_pos h]

theorem request_rw_of_pending (s : Sched) (h1 : s.inReadonly = false)
    (h2 : s.rwCbPending = true) : request_readwrite_callback s = s := by
  unfold request_readwrite_callback
  rw [if_neg (by simp [h1]), if_pos h2]

theorem request_rw_idle (s : Sched) (h1 : s.inReadonly = false) (h2 : s.rwCbPending = false) :
    request_readwrite_callback s =
      { s with rwCbPending := true, trace := s.trace ++ [Event.regReadWrite] } := by
  unfold request_readwrite_callback
  rw [if_neg (by simp [h1]), if_neg (by simp [h2])]

theorem request_rw_pending_after (s : Sched) (h1 : s.inReadonly = false) :
    (request_readwrite_callback s).rwCbPending = true := by
  by_cases h2 : s.rwCbPending = true
  · rw [request_rw_of_pending s h1 h2]
    exact h2
  · rw [request_rw_idle s h1 (by simpa using h2)]

@[simp] theorem request_rw_ready (s : Sched) :
    (request_readwrite_callback s).ready = s.ready := by
  unfold request_readwrite_callback
  split <;> [rfl; skip]
  split <;> rfl

theorem run_ready_true_def (fuel : Nat) (s : Sched) :
    run_ready true fuel s = run_ready_loop true fuel (flush_pending_writes s) := rfl

theorem run_ready_false_def (fuel : Nat) (s : Sched) :
    run_ready false fuel s = run_ready_loop false fuel s := rfl

/-! ### Timer arithmetic -/

theorem ticks_of_step (delay : Nat) (p : TimeUnit) :
    Timer.ticks delay TimeUnit.step p = delay := by
  simp [Timer.ticks]

theorem ticks_eq_specTicks (delay : Nat) (u p : TimeUnit) (h : u ≠ TimeUnit.step) :
    Timer.ticks delay u p = specTicks delay u p := by
  unfold Timer.ticks specTicks
  rw [if_neg h]
  have h10 : (10 : ℚ) ≠ 0 := by norm_num
  have hpow : (10 : ℚ) ^ (-p.exponent) / (10 : ℚ) ^ (-u.exponent) =
      (10 : ℚ) ^ (u.exponent - p.exponent) := by
    rw [← zpow_sub₀ h10]
    congr 1
    ring
  rw [hpow]

theorem ticks_one_ns_ps : Timer.ticks 1 TimeUnit.ns TimeUnit.ps = 1000 := by
  rw [ticks_eq_specTicks 1 TimeUnit.ns TimeUnit.ps (by decide)]
  unfold specTicks
  norm_num [TimeUnit.exponent]
  decide

theorem specTicks_one_step_ps : specTicks 1 TimeUnit.step TimeUnit.ps = 10 ^ 12 := by
  unfold specTicks
  norm_num [TimeUnit.exponent]
  decide

/-! ### The claims -/

/-- Claim C2 counterexample: the claim's conversion formula
`ticks = delay * 10 ^ (unit - precision)` applied to `Timer(1, step)` under
precision `ps` demands `10 ^ 12` ticks, but `Timer::await_suspend` passes the
delay through unchanged for `unit::step` (conversion factor 1) and registers
1 tick; the delay is nonzero, so suspension is not skipped either. -/
theorem C2_counterexample :
    Timer.await_ready 1 = false ∧
    Timer.ticks 1 TimeUnit.step TimeUnit.ps = 1 ∧
    specTicks 1 TimeUnit.step TimeUnit.ps = 10 ^ 12 ∧
    Timer.ticks 1 TimeUnit.step TimeUnit.ps ≠ specTicks 1 TimeUnit.step TimeUnit.ps := by
  refine ⟨rfl, ticks_of_step 1 TimeUnit.ps, specTicks_one_step_ps, ?_⟩
  rw [ticks_of_step 1 TimeUnit.ps, specTicks_one_step_ps]
  decide

/-- Claim C2 (amended): for every `Timer(delay, unit)` under any simulator
precision, `await_ready()` is true exactly when `delay = 0`; for every
non-step unit the registered tick count equals
`delay * 10 ^ (unit - precision)` rounded toward zero (the double
computation read as exact real arithmetic); for `unit = step` the delay is
passed through unchanged; in particular `Timer(1, ns)` with precision `ps`
registers a timed callback of exactly 1000 ticks. -/
theorem C2_timer_conversion :
    ∀ (delay : Nat) (u p : TimeUnit),
      (Timer.await_ready delay = true ↔ delay = 0) ∧
      (u ≠ TimeUnit.step → Timer.ticks delay u p = specTicks delay u p) ∧
      (u = TimeUnit.step → Timer.ticks delay u p = delay) ∧
      ∀ (h : Nat) (s : Sched),
        (Timer.await_suspend 1 TimeUnit.ns TimeUnit.ps h s).trace =
          s.trace ++ [Event.regTimed h 1000] := by
  intro delay u p
  refine ⟨by simp [Timer.await_ready], ticks_eq_specTicks delay u p, ?_, ?_⟩
  · intro h
    rw [h]
    exact ticks_of_step delay p
  · intro h s
    unfold Timer.await_suspend
    rw [ticks_one_ns_ps]
    rfl

/-- Claim C10: for a `Timer` with `unit::step`, `await_suspend` hands the
delay to `gpi_register_timed_callback` unchanged (conversion factor 1),
whatever the simulator precision is; the `10 ^ (unit - precision)` scaling
is computed only on the non-step branch. -/
theorem C10_step_delay_unscaled :
    ∀ (delay : Nat) (p : TimeUnit),
      Timer.ticks delay TimeUnit.step p = delay ∧
      ∀ (h : Nat) (s : Sched),
        (Timer.await_suspend delay TimeUnit.step p h s).trace =
          s.trace ++ [Event.regTimed h delay] := by
  intro delay p
  refine ⟨ticks_of_step delay p, ?_⟩
  intro h s
  unfold Timer.await_suspend
  rw [ticks_of_step delay p]
  rfl

/-- Claim C6 counterexample: resuming a join waiter whose target captured an
exception rethrows it, but `await_resume` is exited by the rethrow before
`handle.destroy()` is reached, so the target frame is *not* destroyed —
contrary to the claim that the frame is destroyed after the rethrow. -/
theorem C6_counterexample :
    (join_await_resume (some 1) [(1, excFrame)]).1 = some "boom" ∧
    findF 1 (join_await_resume (some 1) [(1, excFrame)]).2 = some excFrame := by
  exact ⟨rfl, rfl⟩

/-- Claim C6 (amended): resuming the waiter rethrows the target's captured
exception if one exists, in which case the rethrow exits `await_resume`
before the destroy statement and the target frame is left alive; only when
no exception was captured is the frame destroyed, with resume returning
normally. -/
theorem C6_join_resume_rethrow :
    ∀ (fid : Nat) (fr : Frame) (frames : FrameStore), findF fid frames = some fr →
      (∀ e, fr.exc = some e → join_await_resume (some fid) frames = (some e, frames)) ∧
      (fr.exc = none → join_await_resume (some fid) frames = (none, removeF fid frames)) := by
  intro fid fr frames hf
  constructor
  · intro e he
    unfold join_await_resume
    simp [hf, he]
  · intro he
    unfold join_await_resume
    simp [hf, he]

/-- Claim C6 witness: a concrete normally-completed frame is destroyed by
`await_resume` with no exception propagated. -/
theorem C6_witness :
    join_await_resume (some 2) [(2, plainFrame)] = (none, removeF 2 [(2, plainFrame)]) :=
  (C6_join_resume_rethrow 2 plainFrame [(2, plainFrame)] (by decide)).2 (by decide)

/-- Claim C7, evaluated at the failing input: looking up the same absent
child name twice on a valid handle issues `gpi_get_handle_by_name` twice —
the miss path of `Handle::operator[]` returns without inserting the failed
name into the cache, although the cache's `optional<Handle>` value type and
the `value_or` on the hit path were built to memoize misses. -/
theorem C7_miss_requeried :
    (handle_child missSim "clk2" ({} : HandleState)).1 = none ∧
    (handle_child missSim "clk2" ({} : HandleState)).2.queries = ["clk2"] ∧
    (handle_child missSim "clk2" ({} : HandleState)).2.cache = [] ∧
    (handle_child missSim "clk2" (handle_child missSim "clk2" ({} : HandleState)).2).2.queries
      = ["clk2", "clk2"] := by
  exact ⟨rfl, rfl, rfl, rfl⟩

/-- The exit computation of `report_results`, with the counter inlined. -/
theorem report_results_exit_eq (results : List TestResult) :
    report_results_exit results =
      if 0 < results.countP (fun r => !r.passed) then some 1 else none := rfl

/-- The verdict-and-message bookkeeping of the test-runner loop, as a map. -/
theorem run_tests_eq_map (tests : List (String × Option String)) :
    run_tests tests = tests.map
      (fun t => { name := t.1, passed := t.2.isNone, errorMessage := t.2.getD "" }) := by
  induction tests with
  | nil => rfl
  | cons t rest ih => simp [run_tests, ih]

/-- Claim C9: the runner records one result per registered test, in
registration order, with the recorded verdict reflecting that test's own
outcome regardless of earlier failures; `report_results` exits the process
with status 1 exactly when some recorded test failed, and returns normally
(no nonzero exit) exactly when every recorded test passed. -/
theorem C9_all_tests_reported_exit_code :
    ∀ tests : List (String × Option String),
      (run_tests tests).length = tests.length ∧
      (∀ i : Nat, ((run_tests tests)[i]?).map TestResult.name =
        (tests[i]?).map Prod.fst) ∧
      (∀ i : Nat, ((run_tests tests)[i]?).map TestResult.passed =
        (tests[i]?).map (fun t => t.2.isNone)) ∧
      (report_results_exit (run_tests tests) = some 1 ↔
        ∃ r ∈ run_tests tests, r.passed = false) ∧
      (report_results_exit (run_tests tests) = none ↔
        ∀ r ∈ run_tests tests, r.passed = true) := by
  intro tests
  have hcount : (0 < (run_tests tests).countP (fun r => !r.passed)) ↔
      ∃ r ∈ run_tests tests, r.passed = false := by
    rw [List.countP_pos_iff]
    constructor
    · rintro ⟨r, hr, hp⟩
      exact ⟨r, hr, by simpa using hp⟩
    · rintro ⟨r, hr, hp⟩
      exact ⟨r, hr, by simpa using hp⟩
  refine ⟨?_, ?_, ?_, ?_, ?_⟩
  · rw [run_tests_eq_map]
    simp
  · intro i
    rw [run_tests_eq_map, List.getElem?_map]
    cases tests[i]? <;> rfl
  · intro i
    rw [run_tests_eq_map, List.getElem?_map]
    cases tests[i]? <;> rfl
  · rw [report_results_exit_eq]
    split
    · rename_i hpos
      constructor
      · intro _
        exact hcount.mp hpos
      · intro _
        rfl
    · rename_i hneg
      constructor
      · intro hcontra
        exact absurd hcontra (by simp)
      · intro hex
        exact absurd (hcount.mpr hex) hneg
  · rw [report_results_exit_eq]
    split
    · rename_i hpos
      constructor
      · intro hcontra
        exact absurd hcontra (by simp)
      · intro hall
        obtain ⟨r, hr, hp⟩ := hcount.mp hpos
        rw [hall r hr] at hp
        exact absurd hp (by simp)
    · rename_i hneg
      simp only [true_iff]
      intro r hr
      by_contra hp
      exact hneg (hcount.mpr ⟨r, hr, by simpa using hp⟩)

/-- Claim C1: pending write requests present when a read-write drain begins
are applied in FIFO order (the trace block is the queue mapped front to back
onto `gpi_set_signal_value_int` calls) exactly at the entry of
`run_ready(true)`, before any event of the drain — in particular before any
dequeued continuation is resumed; and a drain with `flush_writes = false`
applies no writes at all, so the scheduler applies writes only inside a
read-write drain. -/
theorem C1_writes_flushed_at_rw_entry :
    ∀ (fuel : Nat) (s : Sched),
      flushEvents s.pendingWrites =
        s.pendingWrites.map (fun w => Event.applyWrite w.handle w.value) ∧
      (∃ δ, (run_ready true fuel s).trace = s.trace ++ flushEvents s.pendingWrites ++ δ) ∧
      (∃ δ, (run_ready false fuel s).trace = s.trace ++ δ ∧
        ∀ e ∈ δ, ∀ a b, e ≠ Event.applyWrite a b) := by
  intro fuel s
  refine ⟨flushEvents_eq_map _, ?_, ?_⟩
  · obtain ⟨δ, hδ, -⟩ :=
      traceExt_run_ready_loop true (P := fun _ => True) (fun _ _ => trivial) (fun _ => trivial)
        (fun _ => trivial) (fun _ => trivial) (fun _ _ _ => trivial) fuel
        (flush_pending_writes s) (fun _ => trivial)
    refine ⟨δ, ?_⟩
    rw [run_ready_true_def, hδ]
    rfl
  · obtain ⟨δ, hδ, hP⟩ :=
      traceExt_run_ready_loop false (P := fun e => ∀ a b, e ≠ Event.applyWrite a b)
        (by intro w t a b; simp) (by intro f a b; simp) (by intro f a b; simp)
        (by intro f a b; simp) (fun h => Bool.noConfusion h) fuel s
        (by intro _ a b; simp)
    exact ⟨δ, by rw [run_ready_false_def]; exact hδ, hP⟩

/-- Claim C3: when a dequeued frame completes with a join waiter installed,
then (i) in a read-write drain with a non-empty pending-write queue the
writes are flushed immediately (FIFO) and the waiter is scheduled through a
zero-tick timed callback; (ii) otherwise the waiter is pushed directly onto
the ready queue, with a read-write callback requested (recorded as the
deferred flag inside a read-only phase); and (iii) the drain loop never
destroys a live non-cancelled frame that has a join waiter installed — its
destruction is left to the waiter's `await_resume`. -/
theorem C3_join_completion_dispatch :
    (∀ (w : Nat) (s : Sched), s.pendingWrites ≠ [] →
      (on_complete_with_waiter true w s).trace =
        s.trace ++ flushEvents s.pendingWrites ++ [Event.regTimed w 0] ∧
      (on_complete_with_waiter true w s).pendingWrites = []) ∧
    (∀ (fw : Bool) (w : Nat) (s : Sched), fw = false ∨ s.pendingWrites = [] →
      (on_complete_with_waiter fw w s).ready = s.ready ++ [w] ∧
      (s.inReadonly = false → (on_complete_with_waiter fw w s).rwCbPending = true) ∧
      (s.inReadonly = true → (on_complete_with_waiter fw w s).needRwAfterRo = true)) ∧
    (∀ (fw : Bool) (fuel : Nat) (s : Sched) (fid : Nat), waiterLive fid s →
      waiterLive fid (run_ready_loop fw fuel s)) := by
  refine ⟨?_, ?_, ?_⟩
  · intro w s hpw
    have hne : s.pendingWrites.isEmpty = false := by
      cases hl : s.pendingWrites with
      | nil => exact absurd hl hpw
      | cons a l => rfl
    unfold on_complete_with_waiter
    rw [if_pos (by simp [hne])]
    exact ⟨rfl, rfl⟩
  · intro fw w s hor
    have hcond : ¬((fw && !s.pendingWrites.isEmpty) = true) := by
      rcases hor with h | h
      · simp [h]
      · simp [h]
    unfold on_complete_with_waiter
    rw [if_neg hcond]
    refine ⟨?_, ?_, ?_⟩
    · show (enqueue_ready w s).ready = s.ready ++ [w]
      unfold enqueue_ready
      rw [request_rw_ready]
    · intro hro
      unfold enqueue_ready
      exact request_rw_pending_after _ hro
    · intro hro
      unfold enqueue_ready
      rw [request_rw_of_readonly { s with ready := s.ready ++ [w] } hro]
  · intro fw fuel s fid h
    exact run_ready_loop_waiterLive fw fid fuel s h

/-- Claim C4: outside a read-only phase and with no registration pending,
any chain of `n + 1` consecutive `request_readwrite_callback` calls
registers exactly one GPI read-write callback: the first call registers and
sets `rw_cb_pending_`, every further call while the flag holds is the
identity, and `flush_pending_writes` is what clears the flag again. -/
theorem C4_request_rw_collapses :
    ∀ (n : Nat) (s : Sched), s.inReadonly = false → s.rwCbPending = false →
      ((request_readwrite_callback)^[n + 1] s).trace = s.trace ++ [Event.regReadWrite] ∧
      ((request_readwrite_callback)^[n + 1] s).rwCbPending = true ∧
      (∀ s2 : Sched, s2.inReadonly = false → s2.rwCbPending = true →
        request_readwrite_callback s2 = s2) ∧
      (∀ s3 : Sched, (flush_pending_writes s3).rwCbPending = false) := by
  have hfix : ∀ (m : Nat) (s2 : Sched), s2.inReadonly = false → s2.rwCbPending = true →
      (request_readwrite_callback)^[m] s2 = s2 := by
    intro m
    induction m with
    | zero => intro s2 _ _; rfl
    | succ m ih =>
      intro s2 ha hb
      rw [Function.iterate_succ_apply, request_rw_of_pending s2 ha hb]
      exact ih s2 ha hb
  intro n s h1 h2
  have hstep := request_rw_idle s h1 h2
  have hone : (request_readwrite_callback)^[n + 1] s =
      { s with rwCbPending := true, trace := s.trace ++ [Event.regReadWrite] } := by
    rw [Function.iterate_succ_apply, hstep]
    exact hfix n _ h1 rfl
  refine ⟨by rw [hone], by rw [hone], request_rw_of_pending, fun s3 => rfl⟩

/-- Claim C4 witness: from the idle state, two consecutive requests register
exactly one read-write callback. -/
theorem C4_witness :
    ((request_readwrite_callback)^[2] ({} : Sched)).trace = [Event.regReadWrite] :=
  (C4_request_rw_collapses 1 {} rfl rfl).1

/-- Claim C5: `request_readwrite_callback` issued inside a read-only phase
registers nothing with the GPI and only records `need_rw_after_ro`; the
whole read-only callback (including the drain it runs) never emits a
`gpi_register_readwrite_callback` call; when the drain left the deferred
flag set, the callback ends by registering a `nexttime` callback (and clears
the flag); and the nexttime trampoline re-issues the read-write request,
which at the start of the next time step (outside the read-only phase)
registers the read-write callback. -/
theorem C5_no_rw_inside_readonly :
    (∀ s : Sched, s.inReadonly = true →
      (request_readwrite_callback s).trace = s.trace ∧
      (request_readwrite_callback s).needRwAfterRo = true) ∧
    (∀ (fuel : Nat) (s : Sched), ∃ δ, (readonly_callback fuel s).trace = s.trace ++ δ ∧
      Event.regReadWrite ∉ δ) ∧
    (∀ (fuel : Nat) (s : Sched),
      (run_ready false fuel { s with inReadonly := true }).needRwAfterRo = true →
      ∃ δ, (readonly_callback fuel s).trace = s.trace ++ δ ++ [Event.regNextTime]) ∧
    (∀ (fuel : Nat) (s : Sched), (readonly_callback fuel s).needRwAfterRo = false) ∧
    (∀ s : Sched, s.inReadonly = false → s.rwCbPending = false →
      nexttime_rw_callback s =
        { s with rwCbPending := true, trace := s.trace ++ [Event.regReadWrite] }) := by
  have hdrain : ∀ (fuel : Nat) (s : Sched),
      ∃ δ, (run_ready_loop false fuel { s with inReadonly := true }).trace = s.trace ++ δ ∧
        ∀ e ∈ δ, e ≠ Event.regReadWrite := by
    intro fuel s
    exact traceExt_run_ready_loop false (P := fun e => e ≠ Event.regReadWrite)
      (by intro w t; simp) (by intro f; simp) (by intro f; simp) (by intro f; simp)
      (fun h => Bool.noConfusion h) fuel { s with inReadonly := true }
      (fun h => Bool.noConfusion h)
  refine ⟨?_, ?_, ?_, ?_, ?_⟩
  · intro s h
    rw [request_rw_of_readonly s h]
    exact ⟨rfl, rfl⟩
  · intro fuel s
    obtain ⟨δ, hδ, hP⟩ := hdrain fuel s
    unfold readonly_callback ro_finish
    split
    · refine ⟨δ ++ [Event.regNextTime], ?_, ?_⟩
      · show (run_ready false fuel { s with inReadonly := true }).trace ++ [Event.regNextTime]
          = s.trace ++ (δ ++ [Event.regNextTime])
        rw [run_ready_false_def, hδ]
        simp
      · intro hmem
        rcases List.mem_append.mp hmem with h | h
        · exact hP _ h rfl
        · simp at h
    · refine ⟨δ, ?_, fun hmem => hP _ hmem rfl⟩
      show (run_ready false fuel { s with inReadonly := true }).trace = s.trace ++ δ
      rw [run_ready_false_def, hδ]
  · intro fuel s hflag
    obtain ⟨δ, hδ, -⟩ := hdrain fuel s
    unfold readonly_callback ro_finish
    rw [if_pos hflag]
    refine ⟨δ, ?_⟩
    show (run_ready false fuel { s with inReadonly := true }).trace ++ [Event.regNextTime]
      = s.trace ++ δ ++ [Event.regNextTime]
    rw [run_ready_false_def, hδ]
  · intro fuel s
    unfold readonly_callback ro_finish
    split
    · rfl
    · rename_i hflag
      simpa using hflag
  · intro s h1 h2
    exact request_rw_idle s h1 h2

/-- Claim C5 witness: a frame that enqueues a write while drained inside the
read-only callback makes the callback defer through a `nexttime`
registration, with no read-write registration emitted. -/
theorem C5_witness :
    ∃ δ, (readonly_callback 2 roScenario).trace = roScenario.trace ++ δ ++ [Event.regNextTime] :=
  (C5_no_rw_inside_readonly.2.2.1) 2 roScenario (by decide)

/-- The drain loop never creates frames: an id absent from the store stays
absent (one iteration). -/
theorem run_one_findF_none (fw : Bool) (fid2 fid : Nat) (s : Sched)
    (h : findF fid s.frames = none) : findF fid (run_one fw fid2 s).frames = none := by
  unfold run_one
  cases hf : findF fid2 s.frames with
  | none => exact h
  | some fr =>
    show findF fid
      (if fr.cancelled = true then destroy_frame fid2 s
       else resume_frame_step fw fid2 fr s).frames = none
    have hne : fid ≠ fid2 := by
      intro he
      subst he
      rw [h] at hf
      exact Option.noConfusion hf
    by_cases hc : fr.cancelled = true
    · rw [if_pos hc, destroy_frame_frames, findF_removeF_ne _ _ _ hne]
      exact h
    · rw [if_neg hc, findF_resume_frame_step_ne _ _ _ _ _ hne]
      exact h

/-- The drain loop never creates frames: an id absent from the store stays
absent. -/
theorem run_ready_loop_findF_none (fw : Bool) (fid : Nat) :
    ∀ (fuel : Nat) (s : Sched), findF fid s.frames = none →
      findF fid (run_ready_loop fw fuel s).frames = none := by
  intro fuel
  induction fuel with
  | zero => exact fun s h => h
  | succ fuel ih =>
    intro s h
    rw [run_ready_loop_unfold]
    cases hstep : run_ready_step fw s with
    | none => exact h
    | some s2 =>
      obtain ⟨fid2, rest, hr, hs2⟩ := run_ready_step_eq fw s s2 hstep
      refine ih s2 ?_
      rw [hs2]
      exact run_one_findF_none fw fid2 fid { s with ready := rest } h

/-- Claim C8: dropping a `JoinHandle` that was never joined marks the child
frame cancelled; the next time the drain loop pops that frame it destroys it
without resuming it; and once a frame is cancelled (or already destroyed),
no `run_ready` drain ever resumes it again. -/
theorem C8_drop_cancels_no_further_resume :
    (∀ (fid : Nat) (fr : Frame) (frames : FrameStore),
      findF fid frames = some fr →
      findF fid (joinhandle_cleanup ⟨some fid, false⟩ frames).2 =
        some { fr with cancelled := true }) ∧
    (∀ (fw : Bool) (fuel : Nat) (fid : Nat) (rest : List Nat) (s : Sched) (fr : Frame),
      s.ready = fid :: rest → findF fid s.frames = some fr → fr.cancelled = true →
      ∃ δ, (run_ready_loop fw (fuel + 1) s).trace = s.trace ++ [Event.destroyFrame fid] ++ δ ∧
        findF fid (run_ready_loop fw (fuel + 1) s).frames = none ∧
        Event.resumeFrame fid ∉ (Event.destroyFrame fid :: δ)) ∧
    (∀ (fw : Bool) (fuel : Nat) (s : Sched) (fid : Nat), cancelledOrGone fid s →
      ∃ δ, (run_ready_loop fw fuel s).trace = s.trace ++ δ ∧
        Event.resumeFrame fid ∉ δ) := by
  refine ⟨?_, ?_, ?_⟩
  · intro fid fr frames hf
    have h2 : (joinhandle_cleanup ⟨some fid, false⟩ frames).2 =
        setF fid { fr with cancelled := true } frames := by
      unfold joinhandle_cleanup
      simp [hf]
    rw [h2, findF_setF_self, hf]
    rfl
  · intro fw fuel fid rest s fr hready hf hcanc
    have hstep : run_ready_step fw s = some (run_one fw fid { s with ready := rest }) := by
      unfold run_ready_step
      rw [hready]
    have hrun : run_one fw fid { s with ready := rest } =
        destroy_frame fid { s with ready := rest } := by
      unfold run_one
      rw [show findF fid ({ s with ready := rest } : Sched).frames = some fr from hf]
      show (if fr.cancelled = true then destroy_frame fid { s with ready := rest }
            else resume_frame_step fw fid fr { s with ready := rest }) = _
      rw [if_pos hcanc]
    have hiter : run_ready_loop fw (fuel + 1) s =
        run_ready_loop fw fuel (destroy_frame fid { s with ready := rest }) := by
      rw [run_ready_loop_unfold, hstep]
      show run_ready_loop fw fuel (run_one fw fid { s with ready := rest }) = _
      rw [hrun]
    have hinv : cancelledOrGone fid (destroy_frame fid { s with ready := rest }) := by
      intro g hg
      rw [destroy_frame_frames, findF_removeF_self] at hg
      exact absurd hg (by simp)
    obtain ⟨-, δ, hδ, hP⟩ :=
      run_ready_loop_cancelled fw fid fuel (destroy_frame fid { s with ready := rest }) hinv
    refine ⟨δ, ?_, ?_, ?_⟩
    · rw [hiter, hδ]
      rfl
    · rw [hiter]
      refine run_ready_loop_findF_none fw fid fuel _ ?_
      rw [destroy_frame_frames, findF_removeF_self]
    · intro hmem
      rcases List.mem_cons.mp hmem with h | h
      · simp at h
      · exact hP _ h rfl
  · intro fw fuel s fid h
    obtain ⟨-, δ, hδ, hP⟩ := run_ready_loop_cancelled fw fid fuel s h
    exact ⟨δ, hδ, fun hmem => hP _ hmem rfl⟩

/-- Claim C8 witness: the drain destroys the concrete dropped frame without
resuming it. -/
theorem C8_witness :
    ∃ δ, (run_ready_loop false 1 dropScenario).trace =
        dropScenario.trace ++ [Event.destroyFrame 4] ++ δ ∧
      findF 4 (run_ready_loop false 1 dropScenario).frames = none ∧
      Event.resumeFrame 4 ∉ (Event.destroyFrame 4 :: δ) :=
  (C8_drop_cancels_no_further_resume.2.1) false 0 4 [] dropScenario droppedFrame rfl
    (by decide) (by decide)

end CocotbCpp
